import Mathlib

/-!
# Verification of the `instprofile` spectral pipeline

Shallow embedding of `instprofile/__init__.py`: the hysteresis peak
detector (`peakdet`), the Gaussian fitting pipeline (`fit_gauss`,
`find_fit`), the FWHM conversion (`fwhm`) and the profile builder
(`inst_profile`).

Modelling conventions:
* Python floats are modelled by an arbitrary `LinearOrderedField α`
  (instantiated at `ℚ` for concrete evaluations and at `ℝ` where the
  transcendental constants matter).
* The external numeric library (`np.sqrt`, `np.exp`, `np.log`, `np.pi`)
  and the external nonlinear solver (`scipy.optimize.leastsq`) are taken
  as parameters: the code treats them as black boxes.
* `sys.exit` / uncaught Python exceptions are modelled by
  `Except String`.
* The initial `mx = -Inf`, `mn = +Inf`, `mxpos = mnpos = NaN` tracker
  values of `peakdet` are modelled by `Option`: `none` stands for the
  not-yet-assigned tracker.  Since any sample compares above `-Inf`
  (resp. below `+Inf`), a `none` tracker is overwritten by the current
  sample, exactly as in the Python code; the `NaN` positions are never
  committed because the commit guards fail while the trackers hold
  `±Inf`.
-/

namespace InstProfile

/-- A Python argument that may be a scalar or an array
(the `np.isscalar` test in `peakdet`). -/
inductive Delta (α : Type) where
  | scalar (v : α)
  | array (l : List α)
deriving DecidableEq

/-- A Python value that is either a scalar float or an array
(`fwhm` accepts and returns both shapes). -/
inductive PyVal (α : Type) where
  | scalar (v : α)
  | arr (l : List α)
deriving DecidableEq

variable {α : Type} [LinearOrderedCommRing α]

/-- The loop state of `peakdet` (lines 75-100 of the source):
running minimum `(mnpos, mn)`, running maximum `(mxpos, mx)`, the
`lookformax` mode flag, and the committed `maxtab` / `mintab` lists. -/
structure PDState (α : Type) where
  mn : Option (α × α)
  mx : Option (α × α)
  lookformax : Bool
  maxtab : List (α × α)
  mintab : List (α × α)
deriving DecidableEq

/-- `mn, mx = np.Inf, -np.Inf`, `mnpos, mxpos = np.NaN, np.NaN`,
`lookformax = True`, `maxtab = []`, `mintab = []`. -/
def initPD : PDState α := ⟨none, none, true, [], []⟩

/-- `if this > mx: mx = this; mxpos = x[i]` (a fresh tracker holds
`-Inf`, which any sample exceeds). -/
def updMax (mx : Option (α × α)) (xi yi : α) : α × α :=
  match mx with
  | none => (xi, yi)
  | some (px, mv) => if mv < yi then (xi, yi) else (px, mv)

/-- `if this < mn: mn = this; mnpos = x[i]`. -/
def updMin (mn : Option (α × α)) (xi yi : α) : α × α :=
  match mn with
  | none => (xi, yi)
  | some (pn, nv) => if yi < nv then (xi, yi) else (pn, nv)

/-- One iteration of the `peakdet` loop body on sample `(xi, yi)`. -/
def pdStep (delta : α) (s : PDState α) (xi yi : α) : PDState α :=
  let mx' := updMax s.mx xi yi
  let mn' := updMin s.mn xi yi
  if s.lookformax then
    if yi < mx'.2 - delta then
      ⟨some (xi, yi), some mx', false, s.maxtab ++ [mx'], s.mintab⟩
    else
      ⟨some mn', some mx', true, s.maxtab, s.mintab⟩
  else
    if mn'.2 + delta < yi then
      ⟨some mn', some (xi, yi), true, s.maxtab, s.mintab ++ [mn']⟩
    else
      ⟨some mn', some mx', false, s.maxtab, s.mintab⟩

/-- The `for i in np.arange(len(y_vector))` loop, folded over the
paired samples `(x[i], y[i])`. -/
def pdRun (delta : α) (s : PDState α) (pairs : List (α × α)) : PDState α :=
  pairs.foldl (fun t p => pdStep delta t p.1 p.2) s

/-- `np.arange(len(y_vector))`: the default x-axis `0, 1, ..., n-1`. -/
def defaultX (n : ℕ) : List α := (List.range n).map Nat.cast

/-- `peakdet(y_vector, delta, x_vector)`: input validation
(`sys.exit` modelled as `.error`) followed by the scan. -/
def peakdet (y_vector : List α) (delta : Delta α)
    (x_vector : Option (List α)) :
    Except String (List (α × α) × List (α × α)) :=
  let x := x_vector.getD (defaultX y_vector.length)
  if y_vector.length ≠ x.length then
    .error "Input vectors v and x must have same length"
  else
    match delta with
    | .array _ => .error "Input argument delta must be a scalar"
    | .scalar d =>
      if d ≤ 0 then
        .error "Input argument delta must be positive"
      else
        let s := pdRun d initPD (x.zip y_vector)
        .ok (s.maxtab, s.mintab)

section Pipeline

variable {α : Type} [LinearOrderedField α]

/-- The 1-D Gaussian model of `fit_gauss`:
`p[0]*(1/np.sqrt(2*np.pi*(p[2]**2)))*np.exp(-(x-p[1])**2/(2*p[2]**2))`,
with the external `np.pi`, `np.sqrt`, `np.exp` as parameters. -/
def gauss_fit (pi : α) (sqrt exp : α → α) (p : α × α × α) (x : α) : α :=
  p.1 * (1 / sqrt (2 * pi * p.2.2 ^ 2)) * exp (-(x - p.2.1) ^ 2 / (2 * p.2.2 ^ 2))

/-- The residual function `e_gauss_fit = gauss_fit(p, x) - y`. -/
def e_gauss_fit (pi : α) (sqrt exp : α → α) (p : α × α × α) (x y : α) : α :=
  gauss_fit pi sqrt exp p x - y

/-- The type of the external `scipy.optimize.leastsq` solver: it receives
the residual function, the initial guess and the data arrays, and returns
some parameter triple (no convergence guarantee). -/
def LeastSq (α : Type) : Type :=
  ((α × α × α) → α → α → α) → (α × α × α) → List α → List α → α × α × α

/-- `fit_gauss(x_vector, y_vector, guess)`: one call to the external
solver on the Gaussian residual. -/
def fit_gauss (pi : α) (sqrt exp : α → α) (leastsq : LeastSq α)
    (x_vector y_vector : List α) (guess : α × α × α) : α × α × α :=
  leastsq (e_gauss_fit pi sqrt exp) guess x_vector y_vector

/-- The post-fit rescaling of line 173:
`values_fit[:, 0] = values_fit[:,0]*(1/np.sqrt(2*np.pi*(values_fit[:,2]**2)))`
applied to one row. -/
def rescaleAmp (pi : α) (sqrt : α → α) (v : α × α × α) : α × α × α :=
  (v.1 * (1 / sqrt (2 * pi * v.2.2 ^ 2)), v.2.1, v.2.2)

/-- `find_fit(x_vector, y_vector, delta)`.  The unpacking
`means_found, peaks_found = peakdet(y_vector, delta, x_vector)[0].T`
raises an uncaught `ValueError` when `maxtab` is empty (a 1-D array of
length 0 cannot be unpacked into two variables); for a nonempty `maxtab`
the columns are `means_found = mxpos`, `peaks_found = mx`.  Each peak is
fitted over the entire arrays from the guess
`[peaks_found[i], means_found[i], 0.1]`, then the amplitude column is
rescaled. -/
def find_fit (pi : α) (sqrt exp : α → α) (leastsq : LeastSq α)
    (x_vector y_vector : List α) (delta : Delta α) :
    Except String (List (α × α × α)) :=
  match peakdet y_vector delta (some x_vector) with
  | .error e => .error e
  | .ok (maxtab, _) =>
    if maxtab.isEmpty then
      .error "ValueError: not enough values to unpack"
    else
      let values_fit := maxtab.map (fun mp =>
        fit_gauss pi sqrt exp leastsq x_vector y_vector (mp.2, mp.1, 1 / 10))
      .ok (values_fit.map (rescaleAmp pi sqrt))

/-- `fwhm(stdev) = 2*np.sqrt(2*np.log(2))*stdev`: a scalar input yields a
scalar, a sequence input is broadcast elementwise. -/
def fwhm (sqrt log : α → α) (stdev : PyVal α) : PyVal α :=
  match stdev with
  | .scalar v => .scalar (2 * sqrt (2 * log 2) * v)
  | .arr l => .arr (l.map (fun v => 2 * sqrt (2 * log 2) * v))

/-- The `fwhm(values[:,2])` column computation of `inst_profile`
(broadcast of `fwhm` over an array). -/
def fwhmArr (sqrt log : α → α) (l : List α) : List α :=
  match fwhm sqrt log (.arr l) with
  | .arr out => out
  | .scalar v => [v]

/-- `inst_profile(wave_vector, flux_vector, delta, upper_lim)`: pair the
fitted means with the FWHM of the fitted standard deviations, keep the
rows with both columns positive
(`(inst_profile[:,0] > 0) & (inst_profile[:,1] > 0)`), and, when
`upper_lim` is a number, keep the rows with `inst_profile[:,1] < upper_lim`. -/
def inst_profile (pi : α) (sqrt exp log : α → α) (leastsq : LeastSq α)
    (wave_vector flux_vector : List α) (delta : Delta α)
    (upper_lim : Option α) : Except String (List (α × α)) :=
  match find_fit pi sqrt exp leastsq wave_vector flux_vector delta with
  | .error e => .error e
  | .ok values =>
    let prof := (values.map (fun v => v.2.1)).zip
      (fwhmArr sqrt log (values.map (fun v => v.2.2)))
    let prof := prof.filter (fun p => decide (0 < p.1) && decide (0 < p.2))
    match upper_lim with
    | some u => .ok (prof.filter (fun p => decide (p.2 < u)))
    | none => .ok prof

end Pipeline

/-! ## The hysteresis state machine of the specification

A second, spec-side description of the extremum detector, written from
the specification's words (§4.1 and §9 of the spec): an explicit
two-state machine `{SeekingMax, SeekingMin}` with running maximum and
running minimum trackers.  `detect_extrema` is proved to implement it. -/

/-- The two modes of the specified hysteresis machine. -/
inductive HMode where
  | seekingMax
  | seekingMin
deriving DecidableEq

/-- The state of the specified machine: the mode, the running maximum
tracker `(mxpos, mx)`, the running minimum tracker `(mnpos, mn)` (absent
until a sample has been seen), and the confirmed extrema. -/
structure HystState (α : Type) where
  mode : HMode
  runMax : Option (α × α)
  runMin : Option (α × α)
  maxima : List (α × α)
  minima : List (α × α)
deriving DecidableEq

section Hyst

variable {α : Type} [LinearOrderedCommRing α]

/-- One transition of the specified machine on sample `(xi, yi)`:
always update the running trackers; in seeking-max mode commit
`(mxpos, mx)` exactly when the sample falls strictly below `mx - delta`,
reset the running-minimum tracker to the current sample and switch mode;
symmetrically in seeking-min mode. -/
def hystStep (delta : α) (s : HystState α) (xi yi : α) : HystState α :=
  let rmax := match s.runMax with
    | none => (xi, yi)
    | some (p, m) => if m < yi then (xi, yi) else (p, m)
  let rmin := match s.runMin with
    | none => (xi, yi)
    | some (p, m) => if yi < m then (xi, yi) else (p, m)
  match s.mode with
  | .seekingMax =>
    if yi < rmax.2 - delta then
      { mode := .seekingMin, runMax := some rmax, runMin := some (xi, yi),
        maxima := s.maxima ++ [rmax], minima := s.minima }
    else
      { mode := .seekingMax, runMax := some rmax, runMin := some rmin,
        maxima := s.maxima, minima := s.minima }
  | .seekingMin =>
    if rmin.2 + delta < yi then
      { mode := .seekingMax, runMax := some (xi, yi), runMin := some rmin,
        maxima := s.maxima, minima := s.minima ++ [rmin] }
    else
      { mode := .seekingMin, runMax := some rmax, runMin := some rmin,
        maxima := s.maxima, minima := s.minima }

/-- The specified detector: scan the paired samples left to right from
the seeking-max mode with fresh trackers, and return the confirmed
maxima and minima in discovery order. -/
def hystDetect (delta : α) (xs ys : List α) :
    List (α × α) × List (α × α) :=
  let final := (xs.zip ys).foldl (fun s p => hystStep delta s p.1 p.2)
    ⟨.seekingMax, none, none, [], []⟩
  (final.maxima, final.minima)

/-- Interpretation of the implementation's loop state as a state of the
specified machine. -/
def toHyst (s : PDState α) : HystState α :=
  ⟨if s.lookformax then .seekingMax else .seekingMin,
    s.mx, s.mn, s.maxtab, s.mintab⟩

end Hyst

/-! ## Invariants, specification predicates and concrete instances -/

section SpecDefs

variable {α : Type} [LinearOrderedCommRing α]

/-- Count invariant of the scan: in seeking-max mode the two committed
lists have equal length, in seeking-min mode the maxima lead by one. -/
def countOK (s : PDState α) : Prop :=
  (s.lookformax = true → s.maxtab.length = s.mintab.length) ∧
  (s.lookformax = false → s.maxtab.length = s.mintab.length + 1)

/-- History invariant of the scan over the already-processed samples
`done`: the trackers hold processed samples, and every committed
extremum is a processed sample that is not the most recent one (a
commit always happens strictly after the committed sample). -/
def histOK (done : List (α × α)) (s : PDState α) : Prop :=
  (∀ e, s.mx = some e → e ∈ done) ∧
  (∀ e, s.mn = some e → e ∈ done) ∧
  (∀ e ∈ s.maxtab, e ∈ done.dropLast) ∧
  (∀ e ∈ s.mintab, e ∈ done.dropLast)

/-- The row filter exactly as the specification words it: a point is
dropped when `wavelength ≤ 0` or `fwhm ≤ 0`, and, when an upper limit is
supplied, additionally when `fwhm ≥ upper_limit`. -/
def specKeep (upper : Option α) (p : α × α) : Bool :=
  decide (¬(p.1 ≤ 0 ∨ p.2 ≤ 0)) &&
    (match upper with
     | some u => decide (¬(u ≤ p.2))
     | none => true)

/-- The profile row built from one fitted parameter triple: the fitted
mean paired with the FWHM of the fitted standard deviation. -/
def profilePoint (sqrt log : α → α) (v : α × α × α) : α × α :=
  (v.2.1, 2 * sqrt (2 * log 2) * v.2.2)

end SpecDefs

/-- A concrete solver for instantiations: returns the initial guess. -/
def guessSolver {α : Type} : LeastSq α := fun _ g _ _ => g

/-- A concrete real solver for instantiations: always returns the
parameter triple `(-1, 1, 1)` (a fit with non-positive amplitude). -/
def negAmpSolver : LeastSq ℝ := fun _ _ _ _ => (-1, 1, 1)

/-- The identity on `ℚ`, standing in for an external scalar function. -/
def idQ : ℚ → ℚ := id

/-- The constant-one function on `ℚ`, standing in for an external
scalar function. -/
def oneQ : ℚ → ℚ := fun _ => 1

/-- Decidable equality of `Except` values, used to evaluate the embedded
functions on concrete inputs. -/
instance instDecEqExcept {ε β : Type} [DecidableEq ε] [DecidableEq β] :
    DecidableEq (Except ε β) := fun a b =>
  match a, b with
  | .error x, .error y =>
    if h : x = y then .isTrue (by rw [h])
    else .isFalse (fun hh => h (Except.error.inj hh))
  | .error _, .ok _ => .isFalse (fun hh => Except.noConfusion hh)
  | .ok _, .error _ => .isFalse (fun hh => Except.noConfusion hh)
  | .ok x, .ok y =>
    if h : x = y then .isTrue (by rw [h])
    else .isFalse (fun hh => h (Except.ok.inj hh))


/-! ## Correspondence and invariant lemmas -/

section Lemmas

variable {α : Type} [LinearOrderedCommRing α]

theorem hystStep_toHyst (delta : α) (s : PDState α) (xi yi : α) :
    hystStep delta (toHyst s) xi yi = toHyst (pdStep delta s xi yi) := by
  rcases s with ⟨mn, mx, lfm, mt, nt⟩
  cases lfm <;>
    simp only [toHyst, hystStep, pdStep, updMax, updMin, if_true, if_false,
      Bool.false_eq_true, ite_false, ite_true] <;>
    rcases mx with _ | ⟨px, mv⟩ <;> rcases mn with _ | ⟨pn, nv⟩ <;>
    dsimp only <;> split_ifs <;> simp_all

theorem pdRun_toHyst (delta : α) (s : PDState α) (pairs : List (α × α)) :
    pairs.foldl (fun t p => hystStep delta t p.1 p.2) (toHyst s) =
      toHyst (pdRun delta s pairs) := by
  induction pairs generalizing s with
  | nil => rfl
  | cons p rest ih =>
    simp only [pdRun, List.foldl_cons] at *
    rw [hystStep_toHyst]
    exact ih _

/-- A successful `peakdet` call arises from a positive scalar threshold,
an x-axis of the right length, and the scan itself. -/
theorem peakdet_ok_elim {y : List α} {d : Delta α} {x : List α}
    {mt nt : List (α × α)} (h : peakdet y d (some x) = .ok (mt, nt)) :
    ∃ v, d = Delta.scalar v ∧ 0 < v ∧ y.length = x.length ∧
      mt = (pdRun v initPD (x.zip y)).maxtab ∧
      nt = (pdRun v initPD (x.zip y)).mintab := by
  simp only [peakdet, Option.getD] at h
  split at h
  · exact absurd h (by simp)
  · rename_i hlen
    split at h
    · exact absurd h (by simp)
    · rename_i v
      split at h
      · exact absurd h (by simp)
      · rename_i hv
        obtain ⟨h1, h2⟩ := Prod.mk.inj (Except.ok.inj h)
        exact ⟨v, rfl, lt_of_not_le hv, not_not.mp hlen, h1.symm, h2.symm⟩

/-- A successful `peakdet` call with any (or no) x-axis is a scan with a
positive scalar threshold over some paired sample list. -/
theorem peakdet_ok_elim' {y : List α} {d : Delta α} {x? : Option (List α)}
    {mt nt : List (α × α)} (h : peakdet y d x? = .ok (mt, nt)) :
    ∃ v pairs, 0 < v ∧
      mt = (pdRun v initPD pairs).maxtab ∧
      nt = (pdRun v initPD pairs).mintab := by
  cases x? with
  | some xs =>
    obtain ⟨v, _, hv, _, h1, h2⟩ := peakdet_ok_elim h
    exact ⟨v, xs.zip y, hv, h1, h2⟩
  | none =>
    simp only [peakdet, Option.getD] at h
    split at h
    · exact absurd h (by simp)
    · split at h
      · exact absurd h (by simp)
      · rename_i v
        split at h
        · exact absurd h (by simp)
        · rename_i hv
          obtain ⟨h1, h2⟩ := Prod.mk.inj (Except.ok.inj h)
          exact ⟨v, (defaultX y.length).zip y, lt_of_not_le hv, h1.symm, h2.symm⟩

theorem countOK_step (d : α) (s : PDState α) (xi yi : α)
    (h : countOK s) : countOK (pdStep d s xi yi) := by
  obtain ⟨ht, hf⟩ := h
  cases hl : s.lookformax
  · have heq := hf hl
    simp only [pdStep, hl, Bool.false_eq_true, if_false]
    split_ifs with hg
    · refine ⟨fun _ => ?_, fun h' => nomatch h'⟩
      simp [heq]
    · exact ⟨fun h' => (nomatch h'), fun _ => heq⟩
  · have heq := ht hl
    simp only [pdStep, hl, if_true]
    split_ifs with hg
    · refine ⟨fun h' => (nomatch h'), fun _ => ?_⟩
      simp [heq]
    · exact ⟨fun _ => heq, fun h' => (nomatch h')⟩

theorem countOK_run (d : α) (s : PDState α) (pairs : List (α × α))
    (h : countOK s) : countOK (pdRun d s pairs) := by
  induction pairs generalizing s with
  | nil => exact h
  | cons p rest ih =>
    simp only [pdRun, List.foldl_cons]
    exact ih _ (countOK_step d s p.1 p.2 h)

theorem histOK_step {d : α} (hd : 0 < d) {done : List (α × α)}
    {s : PDState α} (p : α × α) (h : histOK done s) :
    histOK (done ++ [p]) (pdStep d s p.1 p.2) := by
  obtain ⟨hmx, hmn, hMt, hNt⟩ := h
  obtain ⟨xi, yi⟩ := p
  have hdl : (done ++ [(xi, yi)]).dropLast = done := List.dropLast_concat
  have hsub : done ⊆ done ++ [(xi, yi)] := List.subset_append_left _ _
  have hdls : done.dropLast ⊆ done := (List.dropLast_sublist done).subset
  have hcur : (xi, yi) ∈ done ++ [(xi, yi)] := by simp
  have hmax_mem : updMax s.mx xi yi ∈ done ++ [(xi, yi)] := by
    rcases hx : s.mx with _ | ⟨px, mv⟩ <;> simp only [updMax]
    · exact hcur
    · split_ifs
      · exact hcur
      · exact hsub (hmx _ hx)
  have hmin_mem : updMin s.mn xi yi ∈ done ++ [(xi, yi)] := by
    rcases hx : s.mn with _ | ⟨pn, nv⟩ <;> simp only [updMin]
    · exact hcur
    · split_ifs
      · exact hcur
      · exact hsub (hmn _ hx)
  have hmax_commit : yi < (updMax s.mx xi yi).2 - d →
      updMax s.mx xi yi ∈ done := by
    rcases hx : s.mx with _ | ⟨px, mv⟩ <;> intro hg
    · exfalso; simp only [updMax] at hg; linarith
    · have hval : updMax (some (px, mv)) xi yi =
        if mv < yi then (xi, yi) else (px, mv) := rfl
      by_cases hlt : mv < yi
      · rw [hval, if_pos hlt] at hg
        exfalso; dsimp only at hg; linarith
      · rw [hval, if_neg hlt]
        exact hmx _ hx
  have hmin_commit : (updMin s.mn xi yi).2 + d < yi →
      updMin s.mn xi yi ∈ done := by
    rcases hx : s.mn with _ | ⟨pn, nv⟩ <;> intro hg
    · exfalso; simp only [updMin] at hg; linarith
    · have hval : updMin (some (pn, nv)) xi yi =
        if yi < nv then (xi, yi) else (pn, nv) := rfl
      by_cases hlt : yi < nv
      · rw [hval, if_pos hlt] at hg
        exfalso; dsimp only at hg; linarith
      · rw [hval, if_neg hlt]
        exact hmn _ hx
  cases hl : s.lookformax
  · simp only [pdStep, hl, Bool.false_eq_true, if_false]
    split_ifs with hg
    · refine ⟨?_, ?_, ?_, ?_⟩
      · intro e he; cases Option.some.inj he; exact hcur
      · intro e he; cases Option.some.inj he; exact hmin_mem
      · intro e he; rw [hdl]; exact hdls (hMt e he)
      · intro e he
        rw [hdl]
        rcases List.mem_append.mp he with h' | h'
        · exact hdls (hNt e h')
        · cases List.mem_singleton.mp h'; exact hmin_commit hg
    · refine ⟨?_, ?_, ?_, ?_⟩
      · intro e he; cases Option.some.inj he; exact hmax_mem
      · intro e he; cases Option.some.inj he; exact hmin_mem
      · intro e he; rw [hdl]; exact hdls (hMt e he)
      · intro e he; rw [hdl]; exact hdls (hNt e he)
  · simp only [pdStep, hl, if_true]
    split_ifs with hg
    · refine ⟨?_, ?_, ?_, ?_⟩
      · intro e he; cases Option.some.inj he; exact hmax_mem
      · intro e he; cases Option.some.inj he; exact hcur
      · intro e he
        rw [hdl]
        rcases List.mem_append.mp he with h' | h'
        · exact hdls (hMt e h')
        · cases List.mem_singleton.mp h'; exact hmax_commit hg
      · intro e he; rw [hdl]; exact hdls (hNt e he)
    · refine ⟨?_, ?_, ?_, ?_⟩
      · intro e he; cases Option.some.inj he; exact hmax_mem
      · intro e he; cases Option.some.inj he; exact hmin_mem
      · intro e he; rw [hdl]; exact hdls (hMt e he)
      · intro e he; rw [hdl]; exact hdls (hNt e he)

theorem histOK_run {d : α} (hd : 0 < d) {done : List (α × α)}
    {s : PDState α} (todo : List (α × α)) (h : histOK done s) :
    histOK (done ++ todo) (pdRun d s todo) := by
  induction todo generalizing done s with
  | nil => simpa using h
  | cons p rest ih =>
    have h' := histOK_step hd p h
    have := ih h'
    simpa [pdRun, List.foldl_cons] using this

theorem histOK_peakdet {y x : List α} {d : Delta α} {mt nt : List (α × α)}
    (h : peakdet y d (some x) = .ok (mt, nt)) :
    (∀ e ∈ mt, e ∈ (x.zip y).dropLast) ∧
    (∀ e ∈ nt, e ∈ (x.zip y).dropLast) := by
  obtain ⟨v, _, hv, _, h1, h2⟩ := peakdet_ok_elim h
  have hinit : histOK ([] : List (α × α)) (initPD (α := α)) := by
    refine ⟨?_, ?_, ?_, ?_⟩ <;> intro e he <;> simp [initPD] at he
  have := histOK_run hv (x.zip y) hinit
  rw [List.nil_append] at this
  exact ⟨h1 ▸ this.2.2.1, h2 ▸ this.2.2.2⟩

end Lemmas


/-! ## The claims -/

/-- C1: `detect_extrema` (peakdet) implements hysteresis thresholding:
for every y sequence, every scalar `delta > 0` and every x sequence of
matching length, its output equals that of the specified two-state
hysteresis machine, which tracks a running maximum and a running
minimum, commits `(mxpos, mx)` exactly when the sample falls strictly
below `mx - delta` (resetting the running minimum to the current sample
and switching mode), symmetrically commits `(mnpos, mn)` exactly when
the sample rises strictly above `mn + delta`, and appends commits in
discovery order. -/
theorem detect_extrema_implements_hysteresis {α : Type}
    [LinearOrderedCommRing α] (y x : List α) (d : α) (hd : 0 < d)
    (hlen : x.length = y.length) :
    peakdet y (.scalar d) (some x) = .ok (hystDetect d x y) := by
  have hfold := pdRun_toHyst d (initPD (α := α)) (x.zip y)
  have hinit : toHyst (initPD (α := α)) =
      ⟨.seekingMax, none, none, [], []⟩ := rfl
  simp only [peakdet, Option.getD, hystDetect]
  rw [if_neg (by rw [hlen]; exact fun h => h rfl)]
  rw [if_neg (not_le.mpr hd)]
  rw [← hinit, hfold]
  rfl

/-- C1 witness: a concrete run where the implementation and the
specified machine agree on a detected maximum. -/
theorem detect_extrema_implements_hysteresis_witness :
    peakdet (α := ℤ) [0, 5, 0] (.scalar 1) (some [1, 2, 3]) =
      .ok (hystDetect 1 [1, 2, 3] [0, 5, 0]) ∧
    hystDetect (1 : ℤ) [1, 2, 3] [0, 5, 0] = ([(2, 5)], []) :=
  ⟨detect_extrema_implements_hysteresis [0, 5, 0] [1, 2, 3] 1
    (by decide) (by decide), by decide⟩

/-- C10: the extrema committed by `detect_extrema` strictly alternate
starting with a maximum: whenever the call succeeds, the number of
minima never exceeds the number of maxima, the number of maxima exceeds
the number of minima by at most one, and if no maximum was committed
then no minimum was. -/
theorem detect_extrema_alternation {α : Type} [LinearOrderedCommRing α]
    (y : List α) (d : Delta α) (x? : Option (List α))
    (mt nt : List (α × α)) (h : peakdet y d x? = .ok (mt, nt)) :
    nt.length ≤ mt.length ∧ mt.length ≤ nt.length + 1 ∧
      (mt = [] → nt = []) := by
  obtain ⟨v, pairs, hv, h1, h2⟩ := peakdet_ok_elim' h
  have hc := countOK_run v initPD pairs ⟨fun _ => rfl, fun h' => (nomatch h')⟩
  obtain ⟨hct, hcf⟩ := hc
  subst h1
  subst h2
  cases hl : (pdRun v initPD pairs).lookformax
  · have heq := hcf hl
    refine ⟨by omega, by omega, fun hmt => ?_⟩
    rw [hmt] at heq
    simp at heq
  · have heq := hct hl
    refine ⟨by omega, by omega, fun hmt => ?_⟩
    rw [hmt] at heq
    simp at heq
    exact List.length_eq_zero.mp heq.symm

/-- C10 witness: a concrete successful run (two maxima, one minimum)
satisfying the alternation counts. -/
theorem detect_extrema_alternation_witness :
    ([((6 : ℤ), (0 : ℤ))] : List (ℤ × ℤ)).length ≤
      ([((3 : ℤ), (5 : ℤ)), (7, 3)] : List (ℤ × ℤ)).length ∧
    ([((3 : ℤ), (5 : ℤ)), (7, 3)] : List (ℤ × ℤ)).length ≤
      ([((6 : ℤ), (0 : ℤ))] : List (ℤ × ℤ)).length + 1 ∧
    (([((3 : ℤ), (5 : ℤ)), (7, 3)] : List (ℤ × ℤ)) = [] →
      ([((6 : ℤ), (0 : ℤ))] : List (ℤ × ℤ)) = []) :=
  detect_extrema_alternation [0, 1, 2, 5, 2, 1, 0, 3, 0] (.scalar 1) none
    [(3, 5), (7, 3)] [(6, 0)] (by decide)

/-- C5: a maximum located at the very last sample is never reported:
every maximum committed by a successful `detect_extrema` call is
realised at a sample index `i` with `i + 1 < len(y)`, and (for an
injective x-axis) its confirmed position is never the final sample's
position. -/
theorem detect_extrema_no_last_sample_max {α : Type}
    [LinearOrderedCommRing α] (y x : List α) (d : Delta α)
    (mt nt : List (α × α)) (h : peakdet y d (some x) = .ok (mt, nt)) :
    ∀ pv ∈ mt,
      (∃ i, ∃ hx : i < x.length, ∃ hy : i < y.length,
        i + 1 < y.length ∧ x.get ⟨i, hx⟩ = pv.1 ∧ y.get ⟨i, hy⟩ = pv.2) ∧
      (x.Nodup → ∀ hne : x ≠ [], x.getLast hne ≠ pv.1) := by
  obtain ⟨v, _, _, hlen, _, _⟩ := peakdet_ok_elim h
  have hzlen : (x.zip y).length = y.length := by
    rw [List.length_zip, ← hlen, min_self]
  intro pv hpv
  have hin := (histOK_peakdet h).1 pv hpv
  rw [List.dropLast_eq_take] at hin
  obtain ⟨i, hilt, hget⟩ := List.mem_iff_getElem.mp hin
  have hbound : i < (x.zip y).length - 1 := by
    rw [List.length_take] at hilt
    exact lt_of_lt_of_le hilt (min_le_left _ _)
  have hi1 : i + 1 < y.length := by
    rw [hzlen] at hbound
    omega
  have hix : i < x.length := by omega
  have hiy : i < y.length := by omega
  rw [List.getElem_take, List.getElem_zip] at hget
  have hx1 : x.get ⟨i, hix⟩ = pv.1 := by
    rw [List.get_eq_getElem]
    exact congrArg Prod.fst hget
  have hy1 : y.get ⟨i, hiy⟩ = pv.2 := by
    rw [List.get_eq_getElem]
    exact congrArg Prod.snd hget
  refine ⟨⟨i, hix, hiy, hi1, hx1, hy1⟩, fun hnd hne heq => ?_⟩
  have hxpos : x.length - 1 < x.length := by
    cases x with
    | nil => exact absurd rfl hne
    | cons a l => simp
  have hlast : x.get ⟨x.length - 1, hxpos⟩ = x.get ⟨i, hix⟩ := by
    rw [List.get_eq_getElem, List.get_eq_getElem,
      ← List.getLast_eq_getElem x hne, heq]
    exact hx1.symm
  have := (hnd.get_inj_iff.mp hlast)
  have hieq : x.length - 1 = i := congrArg Fin.val this
  omega

/-- C5 witness: in the concrete run on `y = [0, 5, 0]`,
`x = [1, 2, 3]`, the single reported maximum `(2, 5)` is realised at a
non-final sample, and its position is not the last x value. -/
theorem detect_extrema_no_last_sample_max_witness :
    (∃ i, ∃ hx : i < ([1, 2, 3] : List ℤ).length,
        ∃ hy : i < ([0, 5, 0] : List ℤ).length,
      i + 1 < ([0, 5, 0] : List ℤ).length ∧
      ([1, 2, 3] : List ℤ).get ⟨i, hx⟩ = 2 ∧
      ([0, 5, 0] : List ℤ).get ⟨i, hy⟩ = 5) ∧
    ([1, 2, 3] : List ℤ).getLast (by decide) ≠ 2 := by
  have h := detect_extrema_no_last_sample_max (α := ℤ) [0, 5, 0]
    [1, 2, 3] (.scalar 1) [(2, 5)] [] (by decide) (2, 5) (by decide)
  exact ⟨h.1, h.2 (by decide) (by decide)⟩

/-- C6: `detect_extrema` fails with an invalid-input error exactly when
an explicit x sequence of mismatched length is supplied, or the
threshold is non-scalar, or the threshold is `≤ 0`; and such a failure
aborts the whole `build_instrumental_profile` call. -/
theorem detect_extrema_invalid_input {α : Type} [LinearOrderedField α]
    (pi : α) (sqrt exp log : α → α) (leastsq : LeastSq α) (y : List α)
    (d : Delta α) (x? : Option (List α)) (upper : Option α) :
    ((∃ e, peakdet y d x? = .error e) ↔
      (∃ xs, x? = some xs ∧ xs.length ≠ y.length) ∨
      (∃ l, d = Delta.array l) ∨
      (∃ v, d = Delta.scalar v ∧ v ≤ 0)) ∧
    (∀ xs e, x? = some xs → peakdet y d x? = .error e →
      ∃ e', inst_profile pi sqrt exp log leastsq xs y d upper =
        .error e') := by
  constructor
  · constructor
    · rintro ⟨e, he⟩
      cases x? with
      | none =>
        have hdx : (defaultX y.length : List α).length = y.length := by
          unfold defaultX
          rw [List.length_map, List.length_range]
        simp only [peakdet, Option.getD] at he
        rw [if_neg (by rw [hdx]; exact fun hh => hh rfl)] at he
        split at he
        · rename_i l
          exact Or.inr (Or.inl ⟨l, rfl⟩)
        · rename_i v
          split at he
          · rename_i hv0
            exact Or.inr (Or.inr ⟨v, rfl, hv0⟩)
          · exact absurd he (by simp)
      | some xs =>
        simp only [peakdet, Option.getD] at he
        split at he
        · rename_i hg
          exact Or.inl ⟨xs, rfl, fun hh => hg hh.symm⟩
        · rename_i hg
          split at he
          · rename_i l
            exact Or.inr (Or.inl ⟨l, rfl⟩)
          · rename_i v
            split at he
            · rename_i hv0
              exact Or.inr (Or.inr ⟨v, rfl, hv0⟩)
            · exact absurd he (by simp)
    · rintro (⟨xs, hxs, hne⟩ | ⟨l, hl⟩ | ⟨v, hv, hv0⟩)
      · subst hxs
        refine ⟨"Input vectors v and x must have same length", ?_⟩
        simp only [peakdet, Option.getD]
        rw [if_pos (Ne.symm hne)]
      · subst hl
        by_cases hc : y.length ≠ (x?.getD (defaultX y.length)).length
        · refine ⟨"Input vectors v and x must have same length", ?_⟩
          simp only [peakdet]
          rw [if_pos hc]
        · refine ⟨"Input argument delta must be a scalar", ?_⟩
          simp only [peakdet]
          rw [if_neg hc]
      · subst hv
        by_cases hc : y.length ≠ (x?.getD (defaultX y.length)).length
        · refine ⟨"Input vectors v and x must have same length", ?_⟩
          simp only [peakdet]
          rw [if_pos hc]
        · refine ⟨"Input argument delta must be positive", ?_⟩
          simp only [peakdet]
          rw [if_neg hc]
          exact if_pos hv0
  · intro xs e hx he
    subst hx
    exact ⟨e, by simp only [inst_profile, find_fit, he]⟩

/-- C6 witness: a mismatched explicit x-axis makes `detect_extrema`
fail, and the failure propagates to `build_instrumental_profile`. -/
theorem detect_extrema_invalid_input_witness :
    ∃ e', inst_profile (0 : ℚ) idQ oneQ oneQ guessSolver [1] [1, 2]
      (.scalar 1) none = .error e' :=
  (detect_extrema_invalid_input (0 : ℚ) idQ oneQ oneQ guessSolver [1, 2]
      (.scalar 1) (some [1]) none).2 [1]
    "Input vectors v and x must have same length" rfl (by decide)

/-! ## Pipeline lemmas -/

section PipelineLemmas

variable {α : Type} [LinearOrderedField α]

/-- Unfolding of `find_fit` over a successful detection. -/
theorem find_fit_eq (pi : α) (sqrt exp : α → α) (leastsq : LeastSq α)
    {x y : List α} {d : Delta α} {mt nt : List (α × α)}
    (hpk : peakdet y d (some x) = .ok (mt, nt)) :
    find_fit pi sqrt exp leastsq x y d =
      if mt.isEmpty then .error "ValueError: not enough values to unpack"
      else .ok ((mt.map (fun mp =>
        fit_gauss pi sqrt exp leastsq x y (mp.2, mp.1, 1 / 10))).map
          (rescaleAmp pi sqrt)) := by
  simp only [find_fit, hpk]

/-- The spec-side keep predicate with no upper limit is the code's
positivity mask. -/
theorem specKeep_none (p : α × α) :
    specKeep (none : Option α) p =
      (decide (0 < p.1) && decide (0 < p.2)) := by
  have h : (¬(p.1 ≤ 0 ∨ p.2 ≤ 0)) ↔ (0 < p.1 ∧ 0 < p.2) := by
    rw [not_or, not_le, not_le]
  rw [specKeep, decide_eq_decide.mpr h, Bool.decide_and, Bool.and_true]

/-- The spec-side keep predicate with an upper limit is the code's
positivity mask conjoined with the strict upper cut. -/
theorem specKeep_some (u : α) (p : α × α) :
    specKeep (some u) p =
      ((decide (0 < p.1) && decide (0 < p.2)) && decide (p.2 < u)) := by
  have h : (¬(p.1 ≤ 0 ∨ p.2 ≤ 0)) ↔ (0 < p.1 ∧ 0 < p.2) := by
    rw [not_or, not_le, not_le]
  have h2 : (¬(u ≤ p.2)) ↔ p.2 < u := not_le
  rw [specKeep, decide_eq_decide.mpr h, Bool.decide_and,
    decide_eq_decide.mpr h2]

/-- Unfolding of `inst_profile` over a successful fit: the rows are the
profile points of the fitted parameters, filtered by the keep
predicate. -/
theorem inst_profile_eq (pi : α) (sqrt exp log : α → α)
    (leastsq : LeastSq α) {w f : List α} {d : Delta α}
    {values : List (α × α × α)}
    (hff : find_fit pi sqrt exp leastsq w f d = .ok values)
    (upper : Option α) :
    inst_profile pi sqrt exp log leastsq w f d upper =
      .ok ((values.map (profilePoint sqrt log)).filter
        (specKeep upper)) := by
  have hzip : (values.map (fun v => v.2.1)).zip
      (fwhmArr sqrt log (values.map (fun v => v.2.2))) =
      values.map (profilePoint sqrt log) := by
    have harr : fwhmArr sqrt log (values.map (fun v => v.2.2)) =
        values.map (fun v => 2 * sqrt (2 * log 2) * v.2.2) := by
      show (values.map (fun v => v.2.2)).map
        (fun v => 2 * sqrt (2 * log 2) * v) = _
      rw [List.map_map]
      rfl
    rw [harr, List.zip_map']
    rfl
  simp only [inst_profile, hff, hzip]
  cases upper with
  | none =>
    refine congrArg Except.ok (List.filter_congr fun p _ => ?_).symm
    rw [specKeep_none]
  | some u =>
    refine congrArg Except.ok ?_
    rw [List.filter_filter]
    refine (List.filter_congr fun p _ => ?_).symm
    rw [specKeep_some, Bool.and_comm]

/-- The Gaussian model evaluated at its own mean is the rescaled
amplitude (the exponential factor is `exp 0 = 1`). -/
theorem gauss_fit_at_mean (pi : α) (sqrt exp : α → α) (hex : exp 0 = 1)
    (p : α × α × α) :
    gauss_fit pi sqrt exp p p.2.1 = p.1 * (1 / sqrt (2 * pi * p.2.2 ^ 2)) := by
  have hz : (-(p.2.1 - p.2.1) ^ 2 / (2 * p.2.2 ^ 2)) = 0 := by
    rw [sub_self]
    norm_num
  rw [gauss_fit, hz, hex, mul_one]

/-- Concrete detection at `ℚ`: one maximum on a single triangular
bump. -/
theorem peakdet_example_Q :
    peakdet (α := ℚ) [0, 5, 0] (.scalar 1) (some [1, 2, 3]) =
      .ok ([(2, 5)], []) := by
  norm_num [peakdet, pdRun, pdStep, updMax, updMin, initPD, List.zip,
    List.zipWith, Option.getD]

/-- Concrete fit at `ℚ` with the guess-returning solver and degenerate
stand-in scalar functions. -/
theorem find_fit_example_Q :
    find_fit (0 : ℚ) idQ oneQ guessSolver [1, 2, 3] [0, 5, 0]
      (.scalar 1) = .ok [(0, 2, 1 / 10)] := by
  rw [find_fit_eq 0 idQ oneQ guessSolver peakdet_example_Q]
  norm_num [fit_gauss, guessSolver, rescaleAmp, idQ]

/-- Concrete profile at `ℚ` with the guess-returning solver. -/
theorem inst_profile_example_Q :
    inst_profile (0 : ℚ) idQ oneQ oneQ guessSolver [1, 2, 3] [0, 5, 0]
      (.scalar 1) none = .ok [(2, 2 / 5)] := by
  rw [inst_profile_eq 0 idQ oneQ oneQ guessSolver find_fit_example_Q none]
  norm_num [profilePoint, specKeep, idQ, oneQ, List.filter]

end PipelineLemmas

/-- C7: `compute_fwhm` returns exactly `2·√(2 ln 2)·σ` for a scalar
input (as a scalar), and for a sequence input returns a sequence of
equal length whose i-th element is `2·√(2 ln 2)` times the i-th input
element. -/
theorem compute_fwhm_spec :
    (∀ s : ℝ, fwhm Real.sqrt Real.log (.scalar s) =
      .scalar (2 * Real.sqrt (2 * Real.log 2) * s)) ∧
    (∀ l : List ℝ, ∃ out : List ℝ,
      fwhm Real.sqrt Real.log (.arr l) = .arr out ∧
      out.length = l.length ∧
      ∀ i, ∀ hi : i < l.length, ∀ ho : i < out.length,
        out.get ⟨i, ho⟩ =
          2 * Real.sqrt (2 * Real.log 2) * l.get ⟨i, hi⟩) := by
  refine ⟨fun s => rfl, fun l =>
    ⟨l.map (fun v => 2 * Real.sqrt (2 * Real.log 2) * v), rfl,
      List.length_map l _, fun i hi ho => ?_⟩⟩
  rw [List.get_eq_getElem, List.get_eq_getElem, List.getElem_map]

/-- C7 witness: the scalar case at `σ = 3` and the sequence case on a
concrete two-element list. -/
theorem compute_fwhm_spec_witness :
    fwhm Real.sqrt Real.log (.scalar 3) =
      .scalar (2 * Real.sqrt (2 * Real.log 2) * 3) ∧
    ∃ out : List ℝ, fwhm Real.sqrt Real.log (.arr [1, 2]) = .arr out ∧
      out.length = ([1, 2] : List ℝ).length := by
  obtain ⟨h1, h2⟩ := compute_fwhm_spec
  obtain ⟨out, ho1, ho2, _⟩ := h2 [1, 2]
  exact ⟨h1 3, out, ho1, ho2⟩

/-- C9: `build_instrumental_profile` is deterministic and stateless:
two invocations on identical inputs (same wavelengths, fluxes,
threshold and upper limit, with the same external solver and numeric
functions) produce identical outputs. -/
theorem build_profile_deterministic {α : Type} [LinearOrderedField α]
    (pi : α) (sqrt exp log : α → α) (leastsq : LeastSq α)
    (w1 f1 : List α) (d1 : Delta α) (u1 : Option α) (w2 f2 : List α)
    (d2 : Delta α) (u2 : Option α) (hw : w1 = w2) (hf : f1 = f2)
    (hd : d1 = d2) (hu : u1 = u2) :
    inst_profile pi sqrt exp log leastsq w1 f1 d1 u1 =
      inst_profile pi sqrt exp log leastsq w2 f2 d2 u2 := by
  subst hw
  subst hf
  subst hd
  subst hu
  rfl

/-- C9 witness: two identical concrete invocations agree. -/
theorem build_profile_deterministic_witness :
    inst_profile (0 : ℚ) idQ oneQ oneQ guessSolver [1, 2, 3] [0, 5, 0]
        (.scalar 1) none =
      inst_profile (0 : ℚ) idQ oneQ oneQ guessSolver [1, 2, 3] [0, 5, 0]
        (.scalar 1) none :=
  build_profile_deterministic 0 idQ oneQ oneQ guessSolver [1, 2, 3]
    [0, 5, 0] (.scalar 1) none [1, 2, 3] [0, 5, 0] (.scalar 1) none
    rfl rfl rfl rfl

/-- C2: whenever `build_instrumental_profile` succeeds, its output is
the sequence of `(wavelength = fitted mean, fwhm)` pairs of the fitted
parameters, filtered exactly by the claimed predicate (drop
`wavelength ≤ 0` or `fwhm ≤ 0`; with a supplied upper limit
additionally drop `fwhm ≥ upper_limit`), with dropped entries simply
omitted: the output is a sublist (hence in the same relative order) of
the full point sequence. -/
theorem build_profile_filters_points {α : Type} [LinearOrderedField α]
    (pi : α) (sqrt exp log : α → α) (leastsq : LeastSq α) (w f : List α)
    (d : Delta α) (upper : Option α) (out : List (α × α))
    (hok : inst_profile pi sqrt exp log leastsq w f d upper = .ok out) :
    ∃ values, find_fit pi sqrt exp leastsq w f d = .ok values ∧
      out = (values.map (profilePoint sqrt log)).filter
        (specKeep upper) ∧
      out.Sublist (values.map (profilePoint sqrt log)) := by
  cases hff : find_fit pi sqrt exp leastsq w f d with
  | error e =>
    rw [inst_profile, hff] at hok
    exact absurd hok (by simp)
  | ok values =>
    rw [inst_profile_eq pi sqrt exp log leastsq hff upper] at hok
    have hout := (Except.ok.inj hok).symm
    exact ⟨values, rfl, hout, hout ▸ List.filter_sublist _⟩

/-- C2 witness: a concrete successful profile where the single fitted
point survives the filter. -/
theorem build_profile_filters_points_witness :
    ∃ values,
      find_fit (0 : ℚ) idQ oneQ guessSolver [1, 2, 3] [0, 5, 0]
        (.scalar 1) = .ok values ∧
      ([((2 : ℚ), (2 : ℚ) / 5)] : List (ℚ × ℚ)) =
        (values.map (profilePoint idQ oneQ)).filter (specKeep none) ∧
      ([((2 : ℚ), (2 : ℚ) / 5)] : List (ℚ × ℚ)).Sublist
        (values.map (profilePoint idQ oneQ)) :=
  build_profile_filters_points 0 idQ oneQ oneQ guessSolver [1, 2, 3]
    [0, 5, 0] (.scalar 1) none [(2, 2 / 5)] inst_profile_example_Q

/-- C3 (amended): when at least one maximum is detected,
`fit_all_peaks` returns exactly one parameter entry per detected
maximum, in detection order, each obtained by fitting against the
entire x/y arrays from the seed
`(detected peak value, detected peak position, 0.1)`; when zero maxima
are detected it does not return an empty sequence but fails with an
uncaught unpack error. -/
theorem fit_all_peaks_per_maximum {α : Type} [LinearOrderedField α]
    (pi : α) (sqrt exp : α → α) (leastsq : LeastSq α) (x y : List α)
    (d : Delta α) (mt nt : List (α × α))
    (hpk : peakdet y d (some x) = .ok (mt, nt)) :
    (mt ≠ [] → ∃ out, find_fit pi sqrt exp leastsq x y d = .ok out ∧
      out.length = mt.length ∧
      ∀ i, ∀ hm : i < mt.length, ∀ ho : i < out.length,
        out.get ⟨i, ho⟩ = rescaleAmp pi sqrt (fit_gauss pi sqrt exp
          leastsq x y ((mt.get ⟨i, hm⟩).2, (mt.get ⟨i, hm⟩).1,
            1 / 10))) ∧
    (mt = [] → find_fit pi sqrt exp leastsq x y d =
      .error "ValueError: not enough values to unpack") := by
  constructor
  · intro hne
    refine ⟨(mt.map (fun mp => fit_gauss pi sqrt exp leastsq x y
      (mp.2, mp.1, 1 / 10))).map (rescaleAmp pi sqrt), ?_, ?_, ?_⟩
    · rw [find_fit_eq pi sqrt exp leastsq hpk,
        if_neg (by simp [List.isEmpty_iff, hne])]
    · rw [List.length_map, List.length_map]
    · intro i hm ho
      simp only [List.get_eq_getElem, List.getElem_map]
  · intro hemp
    rw [find_fit_eq pi sqrt exp leastsq hpk,
      if_pos (by simp [List.isEmpty_iff, hemp])]

/-- C3 counterexample: on a flat signal `detect_extrema` finds no
maxima and `fit_all_peaks` raises (models the failing unpacking of an
empty array) rather than returning an empty sequence. -/
theorem fit_all_peaks_empty_counterexample :
    peakdet (α := ℝ) [0, 0, 0] (.scalar 1) (some [0, 1, 2]) =
      .ok ([], []) ∧
    find_fit Real.pi Real.sqrt Real.exp guessSolver [0, 1, 2] [0, 0, 0]
      (.scalar 1) = .error "ValueError: not enough values to unpack" := by
  have hpk : peakdet (α := ℝ) [0, 0, 0] (.scalar 1) (some [0, 1, 2]) =
      .ok ([], []) := by
    norm_num [peakdet, pdRun, pdStep, updMax, updMin, initPD, List.zip,
      List.zipWith, Option.getD]
  exact ⟨hpk, by rw [find_fit_eq Real.pi Real.sqrt Real.exp guessSolver
    hpk, if_pos (by decide)]⟩

/-- C3 witness: the amended per-maximum clause at a concrete
one-maximum input. -/
theorem fit_all_peaks_per_maximum_witness :
    ∃ out, find_fit (0 : ℚ) idQ oneQ guessSolver [1, 2, 3] [0, 5, 0]
        (.scalar 1) = .ok out ∧
      out.length = ([((2 : ℚ), (5 : ℚ))] : List (ℚ × ℚ)).length ∧
      ∀ i, ∀ hm : i < ([((2 : ℚ), (5 : ℚ))] : List (ℚ × ℚ)).length,
        ∀ ho : i < out.length,
        out.get ⟨i, ho⟩ = rescaleAmp 0 idQ (fit_gauss 0 idQ oneQ
          guessSolver [1, 2, 3] [0, 5, 0]
          ((([((2 : ℚ), (5 : ℚ))] : List (ℚ × ℚ)).get ⟨i, hm⟩).2,
            (([((2 : ℚ), (5 : ℚ))] : List (ℚ × ℚ)).get ⟨i, hm⟩).1,
            1 / 10)) :=
  (fit_all_peaks_per_maximum 0 idQ oneQ guessSolver [1, 2, 3] [0, 5, 0]
    (.scalar 1) [(2, 5)] [] peakdet_example_Q).1 (by simp)

/-- C8: every entry of a successful `fit_all_peaks` result carries the
solver's mean and standard deviation unchanged, and its amplitude
column is the raw least-squares amplitude rescaled by
`1/√(2π σ²)` — which equals the fitted Gaussian's value at its own
center (its true peak height) whenever `exp 0 = 1`. -/
theorem find_fit_rescaled_amplitude {α : Type} [LinearOrderedField α]
    (pi : α) (sqrt exp : α → α) (leastsq : LeastSq α) (x y : List α)
    (d : Delta α) (mt nt : List (α × α)) (out : List (α × α × α))
    (hex : exp 0 = 1) (hpk : peakdet y d (some x) = .ok (mt, nt))
    (hff : find_fit pi sqrt exp leastsq x y d = .ok out) :
    ∀ i, ∀ hm : i < mt.length, ∀ ho : i < out.length,
      ∃ raw, raw = fit_gauss pi sqrt exp leastsq x y
          ((mt.get ⟨i, hm⟩).2, (mt.get ⟨i, hm⟩).1, 1 / 10) ∧
        out.get ⟨i, ho⟩ =
          (raw.1 * (1 / sqrt (2 * pi * raw.2.2 ^ 2)), raw.2.1,
            raw.2.2) ∧
        (out.get ⟨i, ho⟩).1 = gauss_fit pi sqrt exp raw raw.2.1 := by
  intro i hm ho
  rw [find_fit_eq pi sqrt exp leastsq hpk] at hff
  have hne : mt.isEmpty = false := by
    cases hmt : mt.isEmpty
    · rfl
    · rw [if_pos hmt] at hff
      exact absurd hff (by simp)
  rw [if_neg (by rw [hne]; exact fun hh => nomatch hh)] at hff
  have hout := (Except.ok.inj hff).symm
  subst hout
  refine ⟨fit_gauss pi sqrt exp leastsq x y
    ((mt.get ⟨i, hm⟩).2, (mt.get ⟨i, hm⟩).1, 1 / 10), rfl, ?_, ?_⟩
  · simp only [List.get_eq_getElem, List.getElem_map]
    rfl
  · simp only [List.get_eq_getElem, List.getElem_map]
    rw [gauss_fit_at_mean pi sqrt exp hex]
    rfl

/-- C8 witness: the rescaling relation at a concrete one-maximum
input (the stand-in exponential satisfies `exp 0 = 1`). -/
theorem find_fit_rescaled_amplitude_witness :
    ∃ raw : ℚ × ℚ × ℚ, raw = fit_gauss 0 idQ oneQ guessSolver [1, 2, 3]
        [0, 5, 0] (5, 2, 1 / 10) ∧
      ((0 : ℚ), (2 : ℚ), (1 : ℚ) / 10) =
        (raw.1 * (1 / idQ (2 * 0 * raw.2.2 ^ 2)), raw.2.1, raw.2.2) ∧
      (((0 : ℚ), (2 : ℚ), (1 : ℚ) / 10) : ℚ × ℚ × ℚ).1 =
        gauss_fit 0 idQ oneQ raw raw.2.1 :=
  find_fit_rescaled_amplitude 0 idQ oneQ guessSolver [1, 2, 3]
    [0, 5, 0] (.scalar 1) [(2, 5)] [] [(0, 2, 1 / 10)] rfl
    peakdet_example_Q find_fit_example_Q 0 (by simp) (by simp)

/-- The FWHM conversion constant `2·√(2 ln 2)` is positive. -/
theorem sqrt_log_two_pos : (0 : ℝ) < 2 * Real.sqrt (2 * Real.log 2) := by
  have h : (0 : ℝ) < Real.log 2 := Real.log_pos one_lt_two
  have h2 : (0 : ℝ) < Real.sqrt (2 * Real.log 2) :=
    Real.sqrt_pos.mpr (by linarith)
  linarith

/-- Concrete detection at `ℝ`: one maximum on a single triangular
bump. -/
theorem peakdet_example_R :
    peakdet (α := ℝ) [0, 5, 0] (.scalar 1) (some [1, 2, 3]) =
      .ok ([(2, 5)], []) := by
  norm_num [peakdet, pdRun, pdStep, updMax, updMin, initPD, List.zip,
    List.zipWith, Option.getD]

/-- Concrete fit at `ℝ` with the solver that always returns
`(-1, 1, 1)`. -/
theorem find_fit_example_R :
    find_fit Real.pi Real.sqrt Real.exp negAmpSolver [1, 2, 3]
      [0, 5, 0] (.scalar 1) =
      .ok [(-1 * (1 / Real.sqrt (2 * Real.pi * 1 ^ 2)), 1, 1)] := by
  rw [find_fit_eq Real.pi Real.sqrt Real.exp negAmpSolver
    peakdet_example_R, if_neg (by decide)]
  rfl

/-- Concrete profile at `ℝ` with the solver that always returns
`(-1, 1, 1)`: the point passes the filter although the fitted
amplitude is negative. -/
theorem inst_profile_example_R :
    inst_profile Real.pi Real.sqrt Real.exp Real.log negAmpSolver
      [1, 2, 3] [0, 5, 0] (.scalar 1) none =
      .ok [(1, 2 * Real.sqrt (2 * Real.log 2) * 1)] := by
  rw [inst_profile_eq Real.pi Real.sqrt Real.exp Real.log negAmpSolver
    find_fit_example_R none]
  have hkeep : specKeep (none : Option ℝ)
      ((1 : ℝ), 2 * Real.sqrt (2 * Real.log 2) * 1) = true := by
    rw [specKeep_none]
    have hc := sqrt_log_two_pos
    simp only [Bool.and_eq_true, decide_eq_true_eq]
    constructor
    · norm_num
    · simpa using hc
  simp only [List.filter, profilePoint]
  rw [hkeep]

/-- C4 (amended): every profile point accepted into the final output
comes from a fitted parameter set with `mean > 0` (the wavelength
column) and `stdev > 0` (since the FWHM column is the positive constant
`2·√(2 ln 2)` times the stdev); the amplitude, however, is not checked
by the validity filter, so parameter sets with `amplitude ≤ 0` are not
rejected (see the counterexample). -/
theorem profile_accepted_params_positive (leastsq : LeastSq ℝ)
    (w f : List ℝ) (d : Delta ℝ) (upper : Option ℝ)
    (values : List (ℝ × ℝ × ℝ)) (out : List (ℝ × ℝ))
    (hff : find_fit Real.pi Real.sqrt Real.exp leastsq w f d =
      .ok values)
    (hok : inst_profile Real.pi Real.sqrt Real.exp Real.log leastsq w f
      d upper = .ok out) :
    ∀ p ∈ out, ∃ v ∈ values,
      p = (v.2.1, 2 * Real.sqrt (2 * Real.log 2) * v.2.2) ∧
      0 < v.2.1 ∧ 0 < v.2.2 := by
  rw [inst_profile_eq Real.pi Real.sqrt Real.exp Real.log leastsq hff
    upper] at hok
  have hout := (Except.ok.inj hok).symm
  subst hout
  intro p hp
  obtain ⟨hmem, hkeep⟩ := List.mem_filter.mp hp
  obtain ⟨v, hv, hpv⟩ := List.mem_map.mp hmem
  subst hpv
  unfold specKeep at hkeep
  rw [Bool.and_eq_true] at hkeep
  have h1 := of_decide_eq_true hkeep.1
  rw [not_or, not_le, not_le] at h1
  simp only [profilePoint] at h1
  refine ⟨v, hv, rfl, h1.1, ?_⟩
  have hc := sqrt_log_two_pos
  by_contra hle
  push_neg at hle
  nlinarith [h1.2]

/-- C4 counterexample: a fitted parameter set whose amplitude is
non-positive (raw amplitude `-1`, rescaled amplitude
`-1/√(2π)` ≤ 0) is not rejected: its profile point is emitted. -/
theorem profile_accepts_nonpositive_amplitude :
    find_fit Real.pi Real.sqrt Real.exp negAmpSolver [1, 2, 3]
      [0, 5, 0] (.scalar 1) =
      .ok [(-1 * (1 / Real.sqrt (2 * Real.pi * 1 ^ 2)), 1, 1)] ∧
    ((-1 : ℝ) * (1 / Real.sqrt (2 * Real.pi * 1 ^ 2)) ≤ 0) ∧
    inst_profile Real.pi Real.sqrt Real.exp Real.log negAmpSolver
      [1, 2, 3] [0, 5, 0] (.scalar 1) none =
      .ok [(1, 2 * Real.sqrt (2 * Real.log 2) * 1)] := by
  refine ⟨find_fit_example_R, ?_, inst_profile_example_R⟩
  have h1 : (0 : ℝ) ≤ 1 / Real.sqrt (2 * Real.pi * 1 ^ 2) := by
    positivity
  linarith

/-- C4 witness: the amended theorem at the concrete run — the accepted
point's underlying fit has positive mean and stdev. -/
theorem profile_accepted_params_positive_witness :
    ∃ v ∈ [((-1 : ℝ) * (1 / Real.sqrt (2 * Real.pi * 1 ^ 2)),
        (1 : ℝ), (1 : ℝ))],
      ((1 : ℝ), 2 * Real.sqrt (2 * Real.log 2) * 1) =
        (v.2.1, 2 * Real.sqrt (2 * Real.log 2) * v.2.2) ∧
      0 < v.2.1 ∧ 0 < v.2.2 :=
  profile_accepted_params_positive negAmpSolver [1, 2, 3] [0, 5, 0]
    (.scalar 1) none _ _ find_fit_example_R inst_profile_example_R
    (1, 2 * Real.sqrt (2 * Real.log 2) * 1) (by simp)

end InstProfile
